import Mathlib

/-!
# Korrosync persistence and credential layer — shallow embedding

This file embeds the core of the `korrosync` repository in Lean 4 and proves
the specification claims about it:

* the codec adapters `Rkyv<T>` (`src/service/serialization.rs`) and
  `Bincode<T>` (`src/sync/serialization.rs`) implementing redb's
  `Value`/`Key` traits (`from_bytes`, `as_bytes`, `compare`);
* the domain types `User` (`src/model/user.rs`), `Progress`
  (`src/model/progress.rs`) and the composite `ProgressKey`
  (`src/service/db/redb.rs`);
* the transactional service `KorrosyncServiceRedb` (`src/service/db/redb.rs`)
  and, where a claim cites it, the legacy sync-layer service
  (`src/sync/service.rs`);
* the credential subsystem built on argon2 (`User::new`, `User::check`).

Modelling conventions:

* Serialized data is a token stream `List Nat`.  The external serializers
  (rkyv, bincode) are modelled by concrete injective structural codecs with
  validation (`userSer`/`userDeser`, …): the claims depend only on the
  library contract (deterministic encode, validating decode that inverts it),
  which these codecs satisfy, not on the libraries' exact byte layout.
* `f32 percentage` is represented by its 32-bit pattern as a `Nat`: this
  layer stores and returns the field without arithmetic on it, and the
  serializers round-trip its bits.  `u64 timestamp` is a `Nat`,
  `i64 last_activity` an `Int`.
* The argon2 KDF is modelled by a concrete per-salt-injective derivation
  (`argonDerive`) and PHC-style record string (`phcEncode`/`phcParse`);
  the salt produced by `SaltString::generate` is an explicit argument
  (it is base64, hence free of the `$` separator).
* Committed database state is a pair of key-value maps, one per table; the
  engine (redb) is modelled as never failing, so every infrastructure-error
  path of the service is the `Except.ok` branch.  Each service operation is
  the pure state transformer of its single transaction.
-/

/-! ## Ordering primitives

Rust's derived `Ord` on a struct is lexicographic in field order; `Ord` on
`String` is byte-lexicographic on UTF-8, which coincides with lexicographic
comparison of the scalar-value (codepoint) sequences. -/

def natCmp (a b : Nat) : Ordering :=
  if a < b then Ordering.lt else if a = b then Ordering.eq else Ordering.gt

def charCmp (a b : Char) : Ordering := natCmp a.toNat b.toNat

def lexCmp : List Char → List Char → Ordering
  | [], [] => Ordering.eq
  | [], _ :: _ => Ordering.lt
  | _ :: _, [] => Ordering.gt
  | a :: as, b :: bs =>
    match charCmp a b with
    | Ordering.eq => lexCmp as bs
    | o => o

def strCmp (a b : String) : Ordering := lexCmp a.data b.data

theorem natCmp_eq_iff (a b : Nat) : natCmp a b = Ordering.eq ↔ a = b := by
  unfold natCmp
  split
  · constructor
    · intro h; cases h
    · intro h; omega
  · split
    · simp_all
    · constructor
      · intro h; cases h
      · intro h; simp_all

theorem charCmp_eq_iff (a b : Char) : charCmp a b = Ordering.eq ↔ a = b := by
  unfold charCmp
  rw [natCmp_eq_iff]
  constructor
  · intro h
    have := congrArg Char.ofNat h
    simpa [Char.ofNat_toNat] using this
  · intro h; rw [h]

theorem lexCmp_eq_iff (l1 l2 : List Char) : lexCmp l1 l2 = Ordering.eq ↔ l1 = l2 := by
  induction l1 generalizing l2 with
  | nil =>
    cases l2 with
    | nil => simp [lexCmp]
    | cons b bs => simp [lexCmp]
  | cons a as ih =>
    cases l2 with
    | nil => simp [lexCmp]
    | cons b bs =>
      simp only [lexCmp]
      cases hab : charCmp a b with
      | eq =>
        have hab' : a = b := (charCmp_eq_iff a b).mp hab
        simp [hab', ih]
      | lt =>
        constructor
        · intro h; cases h
        · intro h
          have : a = b := by injection h
          rw [(charCmp_eq_iff a b).mpr this] at hab
          cases hab
      | gt =>
        constructor
        · intro h; cases h
        · intro h
          have : a = b := by injection h
          rw [(charCmp_eq_iff a b).mpr this] at hab
          cases hab

theorem strCmp_eq_iff (a b : String) : strCmp a b = Ordering.eq ↔ a = b := by
  unfold strCmp
  rw [lexCmp_eq_iff]
  constructor
  · intro h
    cases a; cases b; exact congrArg String.mk h
  · intro h; rw [h]

/-! ## Domain types

`User` from `src/model/user.rs` (fields `username`, `password_hash`,
`last_activity: Option<i64>`, all private, with accessor methods), `Progress`
from `src/model/progress.rs`, and the composite `ProgressKey` from
`src/service/db/redb.rs` (fields `document`, `user`, in that order, so the
derived `Ord` compares `document` first). -/

structure User where
  username : String
  password_hash : String
  last_activity : Option Int
deriving DecidableEq

structure Progress where
  device_id : String
  device : String
  percentage : Nat
  progress : String
  timestamp : Nat
deriving DecidableEq

structure ProgressKey where
  document : String
  user : String
deriving DecidableEq

/-- Rust `#[derive(Default)]` for `User`: empty strings, `None`. -/
def User.defaultVal : User := ⟨"", "", none⟩

/-- Rust `#[derive(Default)]` for `Progress`: empty strings and zeros. -/
def Progress.defaultVal : Progress := ⟨"", "", 0, "", 0⟩

/-- Rust `#[derive(Default)]` for `ProgressKey`. -/
def ProgressKey.defaultVal : ProgressKey := ⟨"", ""⟩

/-- Rust `#[derive(PartialOrd, Ord)]` on `ProgressKey`: lexicographic with
`document` compared first, then `user`. -/
def ProgressKey.cmp (a b : ProgressKey) : Ordering :=
  match strCmp a.document b.document with
  | Ordering.eq => strCmp a.user b.user
  | o => o

theorem ProgressKey.cmp_eq_iff (a b : ProgressKey) :
    ProgressKey.cmp a b = Ordering.eq ↔ a = b := by
  unfold ProgressKey.cmp
  cases hd : strCmp a.document b.document with
  | eq =>
    rw [strCmp_eq_iff]
    constructor
    · intro hu
      have hd' := (strCmp_eq_iff a.document b.document).mp hd
      cases a; cases b
      simp_all
    · intro h; rw [h]
  | lt =>
    constructor
    · intro h; cases h
    · intro h
      rw [h] at hd
      rw [(strCmp_eq_iff b.document b.document).mpr rfl] at hd
      cases hd
  | gt =>
    constructor
    · intro h; cases h
    · intro h
      rw [h] at hd
      rw [(strCmp_eq_iff b.document b.document).mpr rfl] at hd
      cases hd

/-! ## Model of the external structural serializers

rkyv (with bytecheck validation) and bincode both give each of the stored
types a deterministic injective byte encoding together with a validating
decoder that inverts it and rejects structurally malformed input.  We model
that contract with token-stream codecs: a string is encoded length-prefixed,
scalar fields as single tokens, and the per-type decoder checks lengths and
trailing garbage. -/

def encStr (s : String) : List Nat :=
  s.data.length :: s.data.map Char.toNat

def decStr : List Nat → Option (String × List Nat)
  | [] => none
  | n :: rest =>
    if n ≤ rest.length then
      some (String.mk ((rest.take n).map Char.ofNat), rest.drop n)
    else none

def encNat (n : Nat) : List Nat := [n]

def decNat : List Nat → Option (Nat × List Nat)
  | [] => none
  | n :: rest => some (n, rest)

def encOptInt : Option Int → List Nat
  | none => [0]
  | some i => [1, if i < 0 then 1 else 0, i.natAbs]

def decOptInt : List Nat → Option (Option Int × List Nat)
  | 0 :: rest => some (none, rest)
  | 1 :: s :: m :: rest =>
    some (some (if s = 1 then -(m : Int) else (m : Int)), rest)
  | _ => none

theorem decStr_encStr (s : String) (r : List Nat) :
    decStr (encStr s ++ r) = some (s, r) := by
  unfold encStr decStr
  simp only [List.cons_append]
  have hlen : s.data.length ≤ (s.data.map Char.toNat ++ r).length := by
    simp
  rw [if_pos hlen]
  have htake : (s.data.map Char.toNat ++ r).take s.data.length = s.data.map Char.toNat := by
    simp
  have hdrop : (s.data.map Char.toNat ++ r).drop s.data.length = r := by
    simp
  rw [htake, hdrop]
  have hmap : (s.data.map Char.toNat).map Char.ofNat = s.data := by
    rw [List.map_map]
    have : ∀ c ∈ s.data, (Char.ofNat ∘ Char.toNat) c = id c := by
      intro c _
      simp [Char.ofNat_toNat]
    rw [List.map_congr_left this, List.map_id]
  rw [hmap]

theorem decNat_encNat (n : Nat) (r : List Nat) :
    decNat (encNat n ++ r) = some (n, r) := rfl

theorem decOptInt_encOptInt (i : Option Int) (r : List Nat) :
    decOptInt (encOptInt i ++ r) = some (i, r) := by
  cases i with
  | none => rfl
  | some v =>
    by_cases hv : v < 0
    · have h1 : encOptInt (some v) = [1, 1, v.natAbs] := by
        simp [encOptInt, hv]
      rw [h1]
      have h3 : decOptInt (1 :: 1 :: v.natAbs :: r) = some (some (-(↑v.natAbs : Int)), r) := rfl
      simp only [List.cons_append, List.nil_append, h3]
      have h2 : -(↑v.natAbs : Int) = v := by omega
      rw [h2]
    · have h1 : encOptInt (some v) = [1, 0, v.natAbs] := by
        simp [encOptInt, hv]
      rw [h1]
      have h3 : decOptInt (1 :: 0 :: v.natAbs :: r) = some (some ((↑v.natAbs : Int)), r) := rfl
      simp only [List.cons_append, List.nil_append, h3]
      have h2 : (↑v.natAbs : Int) = v := by omega
      rw [h2]

/-! ### Per-type codecs -/

/-- Model of the rkyv/bincode encoding of `ProgressKey`: the two string
fields in declaration order. -/
def pkSer (k : ProgressKey) : List Nat :=
  encStr k.document ++ encStr k.user

def pkDeser (bs : List Nat) : Option ProgressKey :=
  match decStr bs with
  | none => none
  | some (d, r1) =>
    match decStr r1 with
    | none => none
    | some (u, r2) => if r2 = [] then some ⟨d, u⟩ else none

/-- Model of the rkyv/bincode encoding of `User`: username, password hash,
optional activity timestamp, in declaration order. -/
def userSer (u : User) : List Nat :=
  encStr u.username ++ encStr u.password_hash ++ encOptInt u.last_activity

def userDeser (bs : List Nat) : Option User :=
  match decStr bs with
  | none => none
  | some (un, r1) =>
    match decStr r1 with
    | none => none
    | some (ph, r2) =>
      match decOptInt r2 with
      | none => none
      | some (la, r3) => if r3 = [] then some ⟨un, ph, la⟩ else none

/-- Model of the rkyv/bincode encoding of `Progress`: the five fields in
declaration order (`percentage` as its 32-bit pattern). -/
def progSer (p : Progress) : List Nat :=
  encStr p.device_id ++ encStr p.device ++ encNat p.percentage ++
    encStr p.progress ++ encNat p.timestamp

def progDeser (bs : List Nat) : Option Progress :=
  match decStr bs with
  | none => none
  | some (did, r1) =>
    match decStr r1 with
    | none => none
    | some (dev, r2) =>
      match decNat r2 with
      | none => none
      | some (pc, r3) =>
        match decStr r3 with
        | none => none
        | some (pr, r4) =>
          match decNat r4 with
          | none => none
          | some (ts, r5) => if r5 = [] then some ⟨did, dev, pc, pr, ts⟩ else none

theorem decStr_encStr_nil (s : String) : decStr (encStr s) = some (s, []) := by
  have h := decStr_encStr s []
  rw [List.append_nil] at h
  exact h

theorem decNat_encNat_nil (n : Nat) : decNat (encNat n) = some (n, []) := rfl

theorem decOptInt_encOptInt_nil (i : Option Int) : decOptInt (encOptInt i) = some (i, []) := by
  have h := decOptInt_encOptInt i []
  rw [List.append_nil] at h
  exact h

theorem pkDeser_pkSer (k : ProgressKey) : pkDeser (pkSer k) = some k := by
  simp only [pkSer, pkDeser, decStr_encStr, decStr_encStr_nil, List.append_assoc]
  rfl

theorem userDeser_userSer (u : User) : userDeser (userSer u) = some u := by
  simp only [userSer, userDeser, List.append_assoc, decStr_encStr,
    decOptInt_encOptInt_nil]
  rfl

theorem progDeser_progSer (p : Progress) : progDeser (progSer p) = some p := by
  simp only [progSer, progDeser, List.append_assoc, decStr_encStr, decNat_encNat,
    decNat_encNat_nil]
  rfl

theorem pkSer_ne_nil (k : ProgressKey) : pkSer k ≠ [] := by
  unfold pkSer encStr
  simp

theorem userSer_ne_nil (u : User) : userSer u ≠ [] := by
  unfold userSer encStr
  simp

theorem progSer_ne_nil (p : Progress) : progSer p ≠ [] := by
  unfold progSer encStr
  simp

theorem pkSer_injective (k1 k2 : ProgressKey) (h : pkSer k1 = pkSer k2) : k1 = k2 := by
  have h1 := pkDeser_pkSer k1
  rw [h, pkDeser_pkSer k2] at h1
  injection h1 with h1
  exact h1.symm

/-! ## The codec adapters

A `Codec` packages what the generic adapters see of the external library for
a stored type `T`: the library serializer (`ser`, which can fail — rkyv's
`to_bytes` and bincode's `encode_to_vec` return `Result`), the library
validating deserializer (`deser` — rkyv's `access` + `deserialize`,
bincode's `decode_from_slice`), and the `Default::default()` value `dflt`
required by the adapters' trait bounds. -/

structure Codec (α : Type) where
  ser : α → Option (List Nat)
  deser : List Nat → Option α
  dflt : α

def userCodec : Codec User := ⟨fun u => some (userSer u), userDeser, User.defaultVal⟩

def progressCodec : Codec Progress :=
  ⟨fun p => some (progSer p), progDeser, Progress.defaultVal⟩

def progressKeyCodec : Codec ProgressKey :=
  ⟨fun k => some (pkSer k), pkDeser, ProgressKey.defaultVal⟩

namespace Rkyv

/-- `impl Value for Rkyv<T>`, `from_bytes` (src/service/serialization.rs
lines 38-59): empty input returns `T::default()`; failed bytecheck
validation or failed deserialization logs a warning and returns
`T::default()`; otherwise the deserialized value. -/
def from_bytes (c : Codec α) (data : List Nat) : α :=
  if data = [] then c.dflt
  else
    match c.deser data with
    | some v => v
    | none => c.dflt

/-- `impl Value for Rkyv<T>`, `as_bytes` (src/service/serialization.rs
lines 61-67): `rkyv::to_bytes(value).unwrap_or_else(|_| AlignedVec::new())`
— a failed serialization yields the empty byte string. -/
def as_bytes (c : Codec α) (v : α) : List Nat :=
  (c.ser v).getD []

/-- `impl Key for Rkyv<T>`, `compare` (src/service/serialization.rs
lines 82-84): `Self::from_bytes(data1).cmp(&Self::from_bytes(data2))` —
ordering of the decoded logical values, `cmp` being `T`'s `Ord`. -/
def compare (c : Codec α) (cmp : α → α → Ordering) (d1 d2 : List Nat) : Ordering :=
  cmp (from_bytes c d1) (from_bytes c d2)

end Rkyv

namespace Bincode

/-- `impl Value for Bincode<T>`, `from_bytes` (src/sync/serialization.rs
lines 27-34): `decode_from_slice(..).map(|v| v.0).unwrap_or_default()` — any
decode failure (including empty input) yields `T::default()`. -/
def from_bytes (c : Codec α) (data : List Nat) : α :=
  (c.deser data).getD c.dflt

/-- `impl Value for Bincode<T>`, `as_bytes` (src/sync/serialization.rs
lines 36-42): `encode_to_vec(..).unwrap_or_default()` — a failed
serialization yields the empty byte string. -/
def as_bytes (c : Codec α) (v : α) : List Nat :=
  (c.ser v).getD []

/-- `impl Key for Bincode<T>`, `compare` (src/sync/serialization.rs
lines 53-55). -/
def compare (c : Codec α) (cmp : α → α → Ordering) (d1 d2 : List Nat) : Ordering :=
  cmp (from_bytes c d1) (from_bytes c d2)

end Bincode

theorem rkyv_from_as_user (u : User) :
    Rkyv.from_bytes userCodec (Rkyv.as_bytes userCodec u) = u := by
  unfold Rkyv.from_bytes Rkyv.as_bytes
  have hb : (userCodec.ser u).getD [] = userSer u := rfl
  rw [hb, if_neg (userSer_ne_nil u)]
  have hd : userCodec.deser (userSer u) = some u := userDeser_userSer u
  rw [hd]

theorem rkyv_from_as_progress (p : Progress) :
    Rkyv.from_bytes progressCodec (Rkyv.as_bytes progressCodec p) = p := by
  unfold Rkyv.from_bytes Rkyv.as_bytes
  have hb : (progressCodec.ser p).getD [] = progSer p := rfl
  rw [hb, if_neg (progSer_ne_nil p)]
  have hd : progressCodec.deser (progSer p) = some p := progDeser_progSer p
  rw [hd]

theorem rkyv_from_as_key (k : ProgressKey) :
    Rkyv.from_bytes progressKeyCodec (Rkyv.as_bytes progressKeyCodec k) = k := by
  unfold Rkyv.from_bytes Rkyv.as_bytes
  have hb : (progressKeyCodec.ser k).getD [] = pkSer k := rfl
  rw [hb, if_neg (pkSer_ne_nil k)]
  have hd : progressKeyCodec.deser (pkSer k) = some k := pkDeser_pkSer k
  rw [hd]

theorem bincode_from_as_user (u : User) :
    Bincode.from_bytes userCodec (Bincode.as_bytes userCodec u) = u := by
  unfold Bincode.from_bytes Bincode.as_bytes
  have hb : (userCodec.ser u).getD [] = userSer u := rfl
  rw [hb]
  have hd : userCodec.deser (userSer u) = some u := userDeser_userSer u
  rw [hd]
  rfl

theorem bincode_from_as_progress (p : Progress) :
    Bincode.from_bytes progressCodec (Bincode.as_bytes progressCodec p) = p := by
  unfold Bincode.from_bytes Bincode.as_bytes
  have hb : (progressCodec.ser p).getD [] = progSer p := rfl
  rw [hb]
  have hd : progressCodec.deser (progSer p) = some p := progDeser_progSer p
  rw [hd]
  rfl

/-! ## Credential subsystem

`User::new` (src/model/user.rs lines 99-117) generates a random salt, derives
an argon2 hash of the password with it, and stores the PHC-format string
`$argon2…$…$salt$output`; `last_activity` starts as `None`.  `User::check`
(lines 177-186) parses the stored string (`PasswordHash::new`, failure mapped
to `Error::runtime`), re-derives from the attempt with the embedded salt and
parameters, and compares to the stored output in constant time:
`Ok(_) => Ok(true)`, `Err(Password) => Ok(false)`, other errors to
`Error::runtime`.

The external argon2 KDF is modelled by `argonDerive`, a concrete derivation
that is injective in the password for a fixed salt (the collision-freedom
the code relies on); the PHC string is modelled with `$`-separated fields.
Salts from `SaltString::generate` are base64 and therefore never contain
the `$` separator; the salt is passed explicitly to `User.new` to make the
randomness an input. -/

/-- Model of the argon2 key derivation: output determined by salt and
password, injective in the password for a fixed salt. -/
def argonDerive (salt password : String) : String :=
  String.mk (salt.data ++ '#' :: password.data)

/-- Algorithm tag of the PHC record (`argon2…`). -/
def argonTag : List Char := ['a', 'r', 'g', 'o', 'n', '2']

/-- Model of the PHC record string `PasswordHasher::hash_password(..).to_string()`:
`$argon2$<salt>$<output>`. -/
def phcEncode (salt output : String) : String :=
  String.mk ('$' :: argonTag ++ '$' :: salt.data ++ '$' :: output.data)

/-- Split a character list at the first `$`. -/
def splitAtDollar : List Char → Option (List Char × List Char)
  | [] => none
  | c :: rest =>
    if c = '$' then some ([], rest)
    else (splitAtDollar rest).map (fun p => (c :: p.1, p.2))

/-- Model of `PasswordHash::new`: parse the PHC record into algorithm tag,
salt and output; reject anything not of that shape (no leading `$`, unknown
algorithm tag, missing fields). -/
def phcParse (s : String) : Option (String × String) :=
  match splitAtDollar s.data with
  | none => none
  | some (pre, rest) =>
    if pre = [] then
      match splitAtDollar rest with
      | none => none
      | some (alg, rest2) =>
        if alg = argonTag then
          match splitAtDollar rest2 with
          | none => none
          | some (salt, output) => some (String.mk salt, String.mk output)
        else none
    else none

/-- Model error type from src/model/error.rs: the single `Runtime` variant. -/
inductive ModelError where
  | runtime : ModelError
deriving DecidableEq

/-- `User::new` (src/model/user.rs lines 99-117), with the generated salt an
explicit argument: hash the password with a fresh salt, store the PHC
record, no activity recorded. -/
def User.new (username password salt : String) : User :=
  { username := username
    password_hash := phcEncode salt (argonDerive salt password)
    last_activity := none }

/-- `User::check` (src/model/user.rs lines 177-186): parse failure is an
infrastructure error; a completed verification returns `Ok(true)` on match
and `Ok(false)` on mismatch (`Err(Password)`). -/
def User.check (u : User) (password : String) : Except ModelError Bool :=
  match phcParse u.password_hash with
  | none => Except.error ModelError.runtime
  | some (salt, stored) =>
    if argonDerive salt password = stored then Except.ok true else Except.ok false

/-- `User::last_activity` accessor (src/model/user.rs lines 227-229). -/
def User.lastActivityAccessor (u : User) : Option Int := u.last_activity

def exceptIsError {ε α : Type} : Except ε α → Bool
  | Except.error _ => true
  | Except.ok _ => false

theorem splitAtDollar_append (xs ys : List Char) (hx : '$' ∉ xs) :
    splitAtDollar (xs ++ '$' :: ys) = some (xs, ys) := by
  induction xs with
  | nil =>
    simp [splitAtDollar]
  | cons c cs ih =>
    have hc : c ≠ '$' := fun h => hx (h ▸ List.mem_cons_self c cs)
    have hcs : '$' ∉ cs := fun h => hx (List.mem_cons_of_mem c h)
    simp only [List.cons_append, splitAtDollar, if_neg hc, List.append_eq, ih hcs]
    rfl

theorem splitAtDollar_cons (l : List Char) : splitAtDollar ('$' :: l) = some ([], l) := by
  simp [splitAtDollar]

theorem phcParse_phcEncode (salt output : String) (hs : '$' ∉ salt.data) :
    phcParse (phcEncode salt output) = some (salt, output) := by
  have htag : '$' ∉ argonTag := by decide
  have hdata : (phcEncode salt output).data
      = '$' :: (argonTag ++ '$' :: (salt.data ++ '$' :: output.data)) := by
    simp [phcEncode, List.cons_append, List.append_assoc]
  have h1 : splitAtDollar (phcEncode salt output).data
      = some ([], argonTag ++ '$' :: (salt.data ++ '$' :: output.data)) := by
    rw [hdata, splitAtDollar_cons]
  have h2 : splitAtDollar (argonTag ++ '$' :: (salt.data ++ '$' :: output.data))
      = some (argonTag, salt.data ++ '$' :: output.data) :=
    splitAtDollar_append argonTag _ htag
  have h3 : splitAtDollar (salt.data ++ '$' :: output.data)
      = some (salt.data, output.data) :=
    splitAtDollar_append salt.data output.data hs
  unfold phcParse
  rw [h1]
  simp only [if_pos rfl, h2, if_pos rfl, h3]
  cases salt
  cases output
  rfl

theorem argonDerive_inj (salt p q : String)
    (h : argonDerive salt p = argonDerive salt q) : p = q := by
  unfold argonDerive at h
  have h1 : salt.data ++ '#' :: p.data = salt.data ++ '#' :: q.data := by
    injection h
  have h2 := List.append_cancel_left h1
  have h3 : p.data = q.data := by injection h2
  cases p
  cases q
  exact congrArg String.mk h3

theorem phcEncode_derive_length (salt password : String) :
    (phcEncode salt (argonDerive salt password)).data.length
      = password.data.length + 2 * salt.data.length + 10 := by
  simp only [phcEncode, argonDerive, argonTag, List.length_cons, List.length_append,
    List.cons_append]
  simp
  omega

/-! ## Transactional service over the schema

`KorrosyncServiceRedb` (src/service/db/redb.rs): two tables, `users-v2`
(key = raw `&str` username, value = `Rkyv<User>` bytes) and `progress-v2`
(key = `Rkyv<ProgressKey>` bytes, value = `Rkyv<Progress>` bytes).  The
committed state of the two tables is a pair of maps; each operation is the
pure state transformer of its single transaction (the engine's own failure
paths — `begin`, `open_table`, `commit`, I/O — are modelled as succeeding,
so the `map_err(ServiceError::db)` branches never fire). -/

def updateFn {κ ω : Type} [DecidableEq κ] (m : κ → Option ω) (k : κ) (v : Option ω) :
    κ → Option ω :=
  fun x => if x = k then v else m x

theorem updateFn_same {κ ω : Type} [DecidableEq κ] (m : κ → Option ω) (k : κ)
    (v : Option ω) : updateFn m k v k = v := by
  simp [updateFn]

theorem updateFn_ne {κ ω : Type} [DecidableEq κ] (m : κ → Option ω) (k x : κ)
    (v : Option ω) (h : x ≠ k) : updateFn m k v x = m x := by
  simp [updateFn, h]

/-- Committed state of the `users-v2` and `progress-v2` tables. -/
structure RedbState where
  users : String → Option (List Nat)
  progress : List Nat → Option (List Nat)

/-- `ServiceError` from src/service/error.rs (`Io`, `DB`); payloads elided. -/
inductive ServiceError where
  | io : ServiceError
  | db : ServiceError
deriving DecidableEq

namespace KorrosyncServiceRedb

/-- `get_user` (src/service/db/redb.rs lines 162-172): one read transaction;
the stored bytes, when present, are decoded by `Rkyv<User>::from_bytes`; an
absent key is `Ok(None)`. -/
def get_user (st : RedbState) (name : String) : Except ServiceError (Option User) :=
  Except.ok ((st.users name).map (Rkyv.from_bytes userCodec))

/-- `create_or_update_user` (src/service/db/redb.rs lines 193-206): one
write transaction, unconditional `insert` keyed by the username; returns
the stored user. -/
def create_or_update_user (st : RedbState) (user : User) :
    RedbState × Except ServiceError User :=
  ({ st with users := updateFn st.users user.username (some (Rkyv.as_bytes userCodec user)) },
    Except.ok user)

/-- `update_progress` (src/service/db/redb.rs lines 246-264): build the
composite `ProgressKey { document, user }`, unconditional `insert` of the
encoded progress under the encoded key, echo `(document, timestamp)`. -/
def update_progress (st : RedbState) (user document : String) (progress : Progress) :
    RedbState × Except ServiceError (String × Nat) :=
  let key : ProgressKey := { document := document, user := user }
  ({ st with
      progress := updateFn st.progress (Rkyv.as_bytes progressKeyCodec key)
        (some (Rkyv.as_bytes progressCodec progress)) },
    Except.ok (key.document, progress.timestamp))

/-- `get_progress` (src/service/db/redb.rs lines 294-311): one read
transaction keyed by the encoded `ProgressKey`; a hit decodes the value
(`Ok(Some(..))`), a miss is `Ok(None)`. -/
def get_progress (st : RedbState) (user document : String) :
    Except ServiceError (Option Progress) :=
  let key : ProgressKey := { document := document, user := user }
  match st.progress (Rkyv.as_bytes progressKeyCodec key) with
  | some bytes => Except.ok (some (Rkyv.from_bytes progressCodec bytes))
  | none => Except.ok none

/-- `delete_user` (src/service/db/redb.rs lines 325-335): one write
transaction; `remove` returns the previous value, whose presence is the
returned boolean. -/
def delete_user (st : RedbState) (name : String) :
    RedbState × Except ServiceError Bool :=
  ({ st with users := updateFn st.users name none },
    Except.ok (st.users name).isSome)

end KorrosyncServiceRedb

/-! ## Legacy sync-layer service

`KorrosyncService` (src/sync/service.rs): `users-v1`/`progress-v1` tables
over the `Bincode` adapter; its `get_progress` (lines 400-415) surfaces a
missing key as `Err(ServiceError::NotFound(..))` instead of `Ok(None)`.  Its
`Progress`/`ProgressKey` structs (lines 86-125) have the same fields as the
model-layer ones and are represented by the same Lean types. -/

/-- `ServiceError` from src/sync/error.rs (`Io`, `DB`, `NotFound(String)`). -/
inductive SyncServiceError where
  | io : SyncServiceError
  | db : SyncServiceError
  | notFound : String → SyncServiceError
deriving DecidableEq

/-- Committed state of the `users-v1` and `progress-v1` tables. -/
structure SyncDbState where
  users : String → Option (List Nat)
  progress : List Nat → Option (List Nat)

namespace SyncKorrosyncService

/-- `get_user` (src/sync/service.rs lines 226-237): an absent username is
`Ok(None)`; a hit is decoded by `Bincode<User>::from_bytes`. -/
def get_user (st : SyncDbState) (name : String) :
    Except SyncServiceError (Option User) :=
  Except.ok ((st.users name).map (Bincode.from_bytes userCodec))

/-- `get_progress` (src/sync/service.rs lines 400-415): a hit is decoded;
a missing key is `Err(ServiceError::NotFound("Progress not found for
document"))`. -/
def get_progress (st : SyncDbState) (user document : String) :
    Except SyncServiceError Progress :=
  let key : ProgressKey := { document := document, user := user }
  match st.progress (Bincode.as_bytes progressKeyCodec key) with
  | some bytes => Except.ok (Bincode.from_bytes progressCodec bytes)
  | none => Except.error (SyncServiceError.notFound "Progress not found for document")

end SyncKorrosyncService

/-! ## Concrete states and codecs used by the witnesses -/

def emptyRedbState : RedbState := ⟨fun _ => none, fun _ => none⟩

def emptySyncState : SyncDbState := ⟨fun _ => none, fun _ => none⟩

def oneUserState : RedbState :=
  ⟨updateFn (fun _ => none) "alice"
      (some (Rkyv.as_bytes userCodec (User.new "alice" "pw1" "s4lt"))),
    fun _ => none⟩

def sampleProgress : Progress :=
  ⟨"device-123", "Kindle", 0, "Page 91 of 200", 1609459200000⟩

/-- A codec whose library serializer fails on every value, to exercise the
adapters' `unwrap_or_else` / `unwrap_or_default` branch. -/
def failingSerCodec : Codec User := ⟨fun _ => none, userDeser, User.defaultVal⟩

/-! ## The claims -/

/-- C1: for every pair of `ProgressKey` values, `Rkyv::<ProgressKey>::compare`
applied to their encodings equals the keys' derived field-wise ordering
(`document` first, then `user`); and that ordering is lawful (equality of
the comparison iff equality of the keys). -/
theorem rkyv_compare_agrees_with_key_order (k1 k2 : ProgressKey) :
    Rkyv.compare progressKeyCodec ProgressKey.cmp
        (Rkyv.as_bytes progressKeyCodec k1) (Rkyv.as_bytes progressKeyCodec k2)
      = ProgressKey.cmp k1 k2
    ∧ (ProgressKey.cmp k1 k2 = Ordering.eq ↔ k1 = k2) := by
  constructor
  · unfold Rkyv.compare
    rw [rkyv_from_as_key, rkyv_from_as_key]
  · exact ProgressKey.cmp_eq_iff k1 k2

/-- C2: decoding the encoding of any `User` or `Progress` value returns that
value, for both codec adapters the two schemas use (`Rkyv` in
src/service/db/redb.rs, `Bincode` in src/sync/service.rs). -/
theorem codec_roundtrip_user_and_progress (u : User) (p : Progress) :
    Rkyv.from_bytes userCodec (Rkyv.as_bytes userCodec u) = u
    ∧ Rkyv.from_bytes progressCodec (Rkyv.as_bytes progressCodec p) = p
    ∧ Bincode.from_bytes userCodec (Bincode.as_bytes userCodec u) = u
    ∧ Bincode.from_bytes progressCodec (Bincode.as_bytes progressCodec p) = p :=
  ⟨rkyv_from_as_user u, rkyv_from_as_progress p, bincode_from_as_user u,
    bincode_from_as_progress p⟩

/-- C3: decode is total — on the empty byte string both adapters return the
type's default, and on bytes the library deserializer rejects (failed
structural validation) both adapters also return the default instead of
propagating an error. -/
theorem decode_defaults_on_empty_and_corrupt (bs : List Nat) :
    (∀ (α : Type) (c : Codec α),
        Rkyv.from_bytes c [] = c.dflt
        ∧ (c.deser bs = none →
            Rkyv.from_bytes c bs = c.dflt ∧ Bincode.from_bytes c bs = c.dflt))
    ∧ Rkyv.from_bytes userCodec [] = User.defaultVal
    ∧ Rkyv.from_bytes progressCodec [] = Progress.defaultVal
    ∧ Bincode.from_bytes userCodec [] = User.defaultVal
    ∧ Bincode.from_bytes progressCodec [] = Progress.defaultVal := by
  refine ⟨?_, rfl, rfl, rfl, rfl⟩
  intro α c
  constructor
  · unfold Rkyv.from_bytes
    rw [if_pos rfl]
  · intro h
    constructor
    · unfold Rkyv.from_bytes
      by_cases hb : bs = []
      · rw [if_pos hb]
      · rw [if_neg hb, h]
    · unfold Bincode.from_bytes
      rw [h]
      rfl

/-- C3 witness: the concrete byte string `[99]` fails validation for `User`
(a length prefix longer than the remaining input) and both adapters decode
it to `User::default()`. -/
theorem decode_defaults_witness :
    userCodec.deser [99] = none
    ∧ Rkyv.from_bytes userCodec [99] = User.defaultVal
    ∧ Bincode.from_bytes userCodec [99] = User.defaultVal := by
  have hnone : userCodec.deser [99] = none := by decide
  have h := ((decode_defaults_on_empty_and_corrupt [99]).1 User userCodec).2 hnone
  exact ⟨hnone, h.1, h.2⟩

/-- C4: `User::check` maps a completed-but-mismatching verification to
`Ok(false)` and an unparseable stored record to an error — the two outcomes
are never conflated — and a user freshly created from plaintext `p` checks
`Ok(true)` on `p` and `Ok(false)` on any `q ≠ p`. -/
theorem check_separates_mismatch_from_corruption
    (username p q salt : String) (hsalt : '$' ∉ salt.data) (hne : q ≠ p) :
    (∀ (u : User) (attempt : String),
        exceptIsError (u.check attempt) = true ↔ phcParse u.password_hash = none)
    ∧ (User.new username p salt).check p = Except.ok true
    ∧ (User.new username p salt).check q = Except.ok false := by
  have hh : (User.new username p salt).password_hash
      = phcEncode salt (argonDerive salt p) := rfl
  have hp := phcParse_phcEncode salt (argonDerive salt p) hsalt
  refine ⟨?_, ?_, ?_⟩
  · intro u attempt
    unfold User.check
    cases hq : phcParse u.password_hash with
    | none => simp [exceptIsError]
    | some pr =>
      obtain ⟨s2, stored⟩ := pr
      by_cases hd : argonDerive s2 attempt = stored
      · simp [hd, exceptIsError]
      · simp [hd, exceptIsError]
  · unfold User.check
    rw [hh, hp]
    show (if argonDerive salt p = argonDerive salt p then
        (Except.ok true : Except ModelError Bool) else Except.ok false) = Except.ok true
    rw [if_pos rfl]
  · have hneq : argonDerive salt q ≠ argonDerive salt p := fun hd =>
      hne (argonDerive_inj salt q p hd)
    unfold User.check
    rw [hh, hp]
    show (if argonDerive salt q = argonDerive salt p then
        (Except.ok true : Except ModelError Bool) else Except.ok false) = Except.ok false
    rw [if_neg hneq]

/-- C4 witness: a user created from "pw1" with a concrete base64-like salt
verifies "pw1" as `Ok(true)` and "pw2" as `Ok(false)`. -/
theorem check_separates_witness :
    (User.new "alice" "pw1" "s4lt").check "pw1" = Except.ok true
    ∧ (User.new "alice" "pw1" "s4lt").check "pw2" = Except.ok false := by
  have h := check_separates_mismatch_from_corruption "alice" "pw1" "pw2" "s4lt"
    (by decide) (by decide)
  exact ⟨h.2.1, h.2.2⟩

/-- C5: two successive `update_progress` calls for the same user and
document leave exactly the second `Progress` stored — a full replacement,
observed by `get_progress` as `Ok(Some(P2))`. -/
theorem update_progress_last_write_wins (st : RedbState) (user document : String)
    (p1 p2 : Progress) :
    KorrosyncServiceRedb.get_progress
        (KorrosyncServiceRedb.update_progress
          (KorrosyncServiceRedb.update_progress st user document p1).1 user document p2).1
        user document
      = Except.ok (some p2) := by
  unfold KorrosyncServiceRedb.get_progress KorrosyncServiceRedb.update_progress
  simp only [updateFn_same]
  rw [rkyv_from_as_progress]

/-- C6 counterexample: the legacy sync-layer `get_progress`
(src/sync/service.rs lines 400-415), one of the read operations the claim
covers, surfaces a missing key as `Err(NotFound)` rather than a successful
absent result: concretely, on an empty store, `get_progress("alice",
"missing.epub")` is an error. -/
theorem sync_get_progress_missing_is_error :
    SyncKorrosyncService.get_progress emptySyncState "alice" "missing.epub"
      = Except.error (SyncServiceError.notFound "Progress not found for document") := rfl

/-- C6 (amended): for the redb transactional service a missing key is never
an error — `get_progress` on a never-stored (user, document) is `Ok(None)`
and `get_user` on an unknown username is `Ok(None)` — and the legacy sync
service's `get_user` likewise returns `Ok(None)`, but its `get_progress`
surfaces the missing key as `Err(NotFound)`. -/
theorem missing_key_read_semantics (st : RedbState) (sst : SyncDbState)
    (user document name : String)
    (hp : st.progress
        (Rkyv.as_bytes progressKeyCodec { document := document, user := user }) = none)
    (hu : st.users name = none)
    (hsu : sst.users name = none)
    (hsp : sst.progress
        (Bincode.as_bytes progressKeyCodec { document := document, user := user }) = none) :
    KorrosyncServiceRedb.get_progress st user document = Except.ok none
    ∧ KorrosyncServiceRedb.get_user st name = Except.ok none
    ∧ SyncKorrosyncService.get_user sst name = Except.ok none
    ∧ SyncKorrosyncService.get_progress sst user document
        = Except.error (SyncServiceError.notFound "Progress not found for document") := by
  refine ⟨?_, ?_, ?_, ?_⟩
  · unfold KorrosyncServiceRedb.get_progress
    simp only [hp]
  · unfold KorrosyncServiceRedb.get_user
    rw [hu]
    rfl
  · unfold SyncKorrosyncService.get_user
    rw [hsu]
    rfl
  · unfold SyncKorrosyncService.get_progress
    simp only [hsp]

/-- C6 witness: on empty stores, the redb reads return `Ok(None)` for
`("alice", "missing.epub")` and username "alice". -/
theorem missing_key_read_witness :
    KorrosyncServiceRedb.get_progress emptyRedbState "alice" "missing.epub" = Except.ok none
    ∧ KorrosyncServiceRedb.get_user emptyRedbState "alice" = Except.ok none
    ∧ SyncKorrosyncService.get_user emptySyncState "alice" = Except.ok none := by
  have h := missing_key_read_semantics emptyRedbState emptySyncState
    "alice" "missing.epub" "alice" rfl rfl rfl rfl
  exact ⟨h.1, h.2.1, h.2.2.1⟩

/-- C7: `delete_user` returns whether the user existed before the delete:
on a stored username it returns `true` and a subsequent `get_user` is
`Ok(None)`; on an unknown username it returns `false`. -/
theorem delete_user_reports_prior_existence (st : RedbState) (name : String) :
    ((st.users name).isSome = true →
        (KorrosyncServiceRedb.delete_user st name).2 = Except.ok true
        ∧ KorrosyncServiceRedb.get_user
            (KorrosyncServiceRedb.delete_user st name).1 name = Except.ok none)
    ∧ (st.users name = none →
        (KorrosyncServiceRedb.delete_user st name).2 = Except.ok false) := by
  constructor
  · intro h
    constructor
    · unfold KorrosyncServiceRedb.delete_user
      simp [h]
    · unfold KorrosyncServiceRedb.get_user KorrosyncServiceRedb.delete_user
      simp [updateFn_same]
  · intro h
    unfold KorrosyncServiceRedb.delete_user
    simp [h]

/-- C7 witness: deleting "alice" from a store holding her returns `true`
and she is gone afterwards; deleting "ghost" returns `false`. -/
theorem delete_user_witness :
    (KorrosyncServiceRedb.delete_user oneUserState "alice").2 = Except.ok true
    ∧ KorrosyncServiceRedb.get_user
        (KorrosyncServiceRedb.delete_user oneUserState "alice").1 "alice" = Except.ok none
    ∧ (KorrosyncServiceRedb.delete_user oneUserState "ghost").2 = Except.ok false := by
  have h1 := (delete_user_reports_prior_existence oneUserState "alice").1 (by rfl)
  have h2 := (delete_user_reports_prior_existence oneUserState "ghost").2 (by rfl)
  exact ⟨h1.1, h1.2, h2⟩

/-- C8: `update_progress` touches only its own composite key — the progress
stored under any other (document, user) pair is unchanged, and every user
record is unchanged. -/
theorem update_progress_frame (st : RedbState) (user document : String) (p : Progress)
    (user2 document2 : String) (h : (document2, user2) ≠ (document, user)) :
    KorrosyncServiceRedb.get_progress
        (KorrosyncServiceRedb.update_progress st user document p).1 user2 document2
      = KorrosyncServiceRedb.get_progress st user2 document2
    ∧ ∀ name : String,
        KorrosyncServiceRedb.get_user
            (KorrosyncServiceRedb.update_progress st user document p).1 name
          = KorrosyncServiceRedb.get_user st name := by
  constructor
  · have hk : ({ document := document2, user := user2 } : ProgressKey)
        ≠ { document := document, user := user } := by
      intro he
      apply h
      have h1 : document2 = document := congrArg ProgressKey.document he
      have h2 : user2 = user := congrArg ProgressKey.user he
      rw [h1, h2]
    have hbytes : Rkyv.as_bytes progressKeyCodec
          ({ document := document2, user := user2 } : ProgressKey)
        ≠ Rkyv.as_bytes progressKeyCodec { document := document, user := user } := by
      intro hb
      exact hk (pkSer_injective _ _ hb)
    unfold KorrosyncServiceRedb.get_progress KorrosyncServiceRedb.update_progress
    simp only [updateFn_ne _ _ _ _ hbytes]
  · intro name
    unfold KorrosyncServiceRedb.get_user KorrosyncServiceRedb.update_progress
    rfl

/-- C8 witness: updating ("alice", "doc") leaves ("bob", "doc") unchanged
and leaves the user table untouched. -/
theorem update_progress_frame_witness :
    KorrosyncServiceRedb.get_progress
        (KorrosyncServiceRedb.update_progress emptyRedbState "alice" "doc" sampleProgress).1
        "bob" "doc"
      = KorrosyncServiceRedb.get_progress emptyRedbState "bob" "doc"
    ∧ KorrosyncServiceRedb.get_user
        (KorrosyncServiceRedb.update_progress emptyRedbState "alice" "doc" sampleProgress).1
        "alice"
      = KorrosyncServiceRedb.get_user emptyRedbState "alice" := by
  have h := update_progress_frame emptyRedbState "alice" "doc" sampleProgress
    "bob" "doc" (by decide)
  exact ⟨h.1, h.2 "alice"⟩

/-- C9: `as_bytes` is total and silently lossy — when the library serializer
fails, both adapters return the empty byte string with no error, and under
the rkyv adapter's empty-input rule those bytes later decode to the type's
default value. -/
theorem as_bytes_total_and_silently_lossy (α : Type) (c : Codec α) (v : α)
    (h : c.ser v = none) :
    Rkyv.as_bytes c v = []
    ∧ Bincode.as_bytes c v = []
    ∧ Rkyv.from_bytes c (Rkyv.as_bytes c v) = c.dflt := by
  unfold Rkyv.as_bytes Bincode.as_bytes Rkyv.from_bytes
  rw [h]
  simp

/-- C9 witness: with a serializer that fails on every value, the adapter
stores the empty byte string and it decodes back to the default. -/
theorem as_bytes_lossy_witness :
    Rkyv.as_bytes failingSerCodec User.defaultVal = []
    ∧ Rkyv.from_bytes failingSerCodec (Rkyv.as_bytes failingSerCodec User.defaultVal)
        = User.defaultVal := by
  have h := as_bytes_total_and_silently_lossy User failingSerCodec User.defaultVal rfl
  exact ⟨h.1, h.2.2⟩

/-- C10: a freshly created user carries the given username, no recorded
activity, and a password hash different from the plaintext password. -/
theorem user_new_initial_fields (username password salt : String) :
    (User.new username password salt).username = username
    ∧ (User.new username password salt).lastActivityAccessor = none
    ∧ (User.new username password salt).password_hash ≠ password := by
  refine ⟨rfl, rfl, ?_⟩
  intro h
  have hh : (User.new username password salt).password_hash
      = phcEncode salt (argonDerive salt password) := rfl
  rw [hh] at h
  have hlen := congrArg (fun s : String => s.data.length) h
  simp only at hlen
  have hsz := phcEncode_derive_length salt password
  omega
